import Mathlib

/-!
Verification of the interrupt-driven human-approval workflow pattern of the
langchain-lab repository, as described in its design specification.

The graph-execution engine (step runner, reducers, checkpoint log,
suspension/resume controller) lives in the imported framework, not in the
repository; those parts are modelled from the specification. Node bodies and
routing functions (review_node, route_after_review, decide_review_needed,
execute_sql, node_a .. node_e, summarize_history removal updates) are
translated from the repository sources.
-/

namespace LangchainLab

/-! ## Suspension/Resume Controller

Modelled from the spec: the Suspension/Resume Controller (spec section 4.4) is
implemented inside the imported framework (langgraph.types.interrupt and
Command resume); only its call sites appear in the repository. A step with one
suspension point is split at that point: `pre` is all code before the
suspension point (it may transform the working state and emit external
effects, here recorded as strings), `request` builds the suspension payload
from the working state, and `post` is the remainder of the step, which
receives the decision value that the suspension point evaluates to. External
effects are recorded in an explicit log so that re-execution is observable. -/

structure StepDef (σ ρ δ : Type) where
  pre : σ → σ × List String
  request : σ → ρ
  post : σ → δ → σ × List String

/-- Outcome of running a step once: either it suspended with a request, or it
completed with a final state. -/
inductive StepOutcome (σ ρ : Type) where
  | suspended (req : ρ)
  | completed (s : σ)
deriving DecidableEq, Repr

/-- Modelled from the spec: one execution of a step by the Controller. The
step always runs from its beginning. If no resume value is cached for the
suspension point, the step suspends there and the request is surfaced; if a
resume value `d` is cached, the Controller returns `d` as the result of the
suspension point and the step runs to completion. The first component is the
log of external effects this execution performed. -/
def runStep (st : StepDef σ ρ δ) (cache : Option δ) (s : σ) :
    List String × StepOutcome σ ρ :=
  let p := st.pre s
  match cache with
  | none => (p.2, StepOutcome.suspended (st.request p.1))
  | some d => (p.2 ++ (st.post p.1 d).2, StepOutcome.completed (st.post p.1 d).1)

/-- Per-step session status of the Controller state machine
(spec section 4.4). -/
inductive SessionStatus (σ ρ : Type) where
  | running
  | suspendedAt (s : σ) (req : ρ)
  | completed (s : σ)
deriving DecidableEq, Repr

/-- Modelled from the spec: first invocation of a step that contains a
suspension point, with no resume value available. Returns the effect log and
the resulting session status; on suspension the pre-suspension (checkpointed)
state is retained with the request. -/
def invokeStep (st : StepDef σ ρ δ) (s : σ) :
    List String × SessionStatus σ ρ :=
  match runStep st none s with
  | (e, StepOutcome.suspended req) => (e, SessionStatus.suspendedAt s req)
  | (e, StepOutcome.completed s2) => (e, SessionStatus.completed s2)

/-- Modelled from the spec: resuming a session. Only a `SUSPENDED` session
reacts; the Controller re-enters the step from its beginning on the
checkpointed state, with the resume decision cached for the suspension
point. -/
def resumeStep (st : StepDef σ ρ δ) (status : SessionStatus σ ρ) (d : δ) :
    List String × SessionStatus σ ρ :=
  match status with
  | SessionStatus.suspendedAt s _ =>
    match runStep st (some d) s with
    | (e, StepOutcome.suspended req) => (e, SessionStatus.suspendedAt s req)
    | (e, StepOutcome.completed s2) => (e, SessionStatus.completed s2)
  | other => ([], other)

/-- Effects accumulated across a full suspend/resume cycle: invoke (which
suspends), then resume with decision `d`. -/
def cycleEffects (st : StepDef σ ρ δ) (s : σ) (d : δ) : List String :=
  (runStep st none s).1 ++ (runStep st (some d) s).1

/-- Final state after a full suspend/resume cycle with decision `d`. -/
def cycleState (st : StepDef σ ρ δ) (s : σ) (d : δ) : StepOutcome σ ρ :=
  (runStep st (some d) s).2

/-- The otherwise-identical step that uses the decision `d` directly in place
of the suspension point: its one run performs `pre` then `post` with `d`. -/
def directRun (st : StepDef σ ρ δ) (d : δ) (s : σ) : σ × List String :=
  (st.post (st.pre s).1 d |>.1, (st.pre s).2 ++ (st.post (st.pre s).1 d).2)

/-! ## The human-in-the-loop approval graph

Translated from src/langgraph-essentials/5-human-in-the-loop.py. The state
holds a proposal text and a status that is one of pending, approved,
rejected. The review node suspends with a request offering the options
approve, reject, edit and routes on the decision; approve_node and
reject_node set the status and reach END; edit_node suspends for a
replacement text and loops back to review. -/

inductive HStatusVal where
  | pending
  | approved
  | rejected
deriving DecidableEq, Repr

structure HState where
  proposal_text : String
  status : HStatusVal
deriving DecidableEq, Repr

structure ReviewRequest where
  question : String
  details : String
  options : List String
deriving DecidableEq, Repr

/-- The suspension payload built by review_node from the current state. -/
def reviewRequest (s : HState) : ReviewRequest :=
  { question := "What would you like to do?"
    details := s.proposal_text
    options := ["approve", "reject", "edit"] }

/-- review_node as a step with one suspension point: the code before the
suspension point is a print (no state change), the suspension payload is
`reviewRequest`, and the code after prints the received decision and leaves
the state unchanged (routing is performed by the graph). -/
def reviewNodeStep : StepDef HState ReviewRequest String where
  pre s := (s, ["Entered review_node"])
  request s := reviewRequest s
  post s d := (s, ["Decision received: " ++ d])

/-- Result of one graph invocation of the approval graph: either a final
state, or a suspension awaiting a review decision, or a suspension awaiting
an edited text (both suspensions retain the checkpointed state). -/
inductive HitlOutcome where
  | finalState (s : HState)
  | suspendedReview (s : HState) (req : ReviewRequest)
  | suspendedEdit (s : HState) (question : String) (details : String)
deriving DecidableEq, Repr

/-- Invoking the approval graph: START leads to review, whose suspension
point has no cached resume value, so the invocation suspends with the review
request. -/
def invokeHitl (s : HState) : HitlOutcome :=
  HitlOutcome.suspendedReview s (reviewRequest s)

/-- Resuming the approval graph with a caller-supplied value. From a review
suspension, review_node re-executes with the value as its decision and
routes: approve sets status approved and ends, reject sets status rejected
and ends, anything else goes to edit_node, which suspends for a new text.
From an edit suspension, edit_node re-executes with the value as the edited
text and the graph loops back to review, which suspends again. -/
def resumeHitl : HitlOutcome → String → HitlOutcome
  | HitlOutcome.suspendedReview s _, d =>
    if d = "approve" then HitlOutcome.finalState { s with status := HStatusVal.approved }
    else if d = "reject" then HitlOutcome.finalState { s with status := HStatusVal.rejected }
    else HitlOutcome.suspendedEdit s "Edit the proposal text" s.proposal_text
  | HitlOutcome.suspendedEdit s _ _, t =>
    let s2 := { s with proposal_text := t }
    HitlOutcome.suspendedReview s2 (reviewRequest s2)
  | other, _ => other

/-! ## State Store: append-reducer merge across a wave

Modelled from the spec: the Step Runner collects, at the end of a wave, the
step outputs of the wave and merges them into an
accumulating (append-reducer) field. Steps are registered in a fixed order
and indexed 0, 1, ..., n-1 by registration; a schedule is the order in which
the steps actually finished within the wave. The merge concatenates the
contributions in step-registration order, not timing order: the runner looks
the contributions up by registration index. Node contributions below are
translated from src/langgraph-essentials/2-static-edges.py. -/

/-- The contributions collected from a wave in the order the schedule ran
the steps: each executed step deposits the pair of its registration index
and its contribution to the accumulating field. -/
def collectPairs (f : Nat → List α) (sched : List Nat) : List (Nat × List α) :=
  sched.map fun j => (j, f j)

/-- Modelled from the spec: merge of a wave of `n` registered steps into an
accumulating field holding `init`. The contributions are collected in
schedule order, then concatenated onto `init` in registration order by
looking each registration index up among the collected pairs. -/
def mergeWave (n : Nat) (f : Nat → List α) (sched : List Nat)
    (init : List α) : List α :=
  init ++ ((List.range n).filterMap fun i => (collectPairs f sched).lookup i).flatten

/-- Looking up a key in a list of key-value pairs built from the keys
themselves returns the value at that key whenever the key occurs. -/
theorem lookup_collectPairs (f : Nat → List α) (sched : List Nat) (i : Nat)
    (hi : i ∈ sched) : (collectPairs f sched).lookup i = some (f i) := by
  induction sched with
  | nil => cases hi
  | cons j t ih =>
    rcases List.mem_cons.mp hi with h | h
    · subst h
      simp [collectPairs, List.lookup]
    · by_cases hij : i = j
      · subst hij
        simp [collectPairs, List.lookup]
      · have hb : (i == j) = false := by
          simpa using hij
        simpa [collectPairs, List.lookup, hb] using ih h

/-- A filterMap whose function is total on the list is a map. -/
theorem filterMap_eq_map_of_forall (g : β → Option γ) (h : β → γ)
    (l : List β) (hl : ∀ i ∈ l, g i = some (h i)) :
    l.filterMap g = l.map h := by
  induction l with
  | nil => rfl
  | cons b t ih =>
    rw [List.filterMap_cons, hl b (List.mem_cons_self b t), List.map_cons,
      ih fun i hi => hl i (List.mem_cons_of_mem b hi)]

/-- The contributions of nodes B, C, D of the static-edges example — the
parallel wave fanning out of node A — in registration order: each appends
one token to the accumulating messages field. -/
def staticEdgesWave : Nat → List String
  | 0 => ["B"]
  | 1 => ["C"]
  | 2 => ["D"]
  | _ => []

/-! ## Message accumulation with removal

Modelled from the spec: the specialized reducer for message-like
accumulating fields (spec section 4.2, the add_messages reducer of the
framework) appends ordinary entries, while an update tagged with a removal
identity deletes the entry with matching identity from the accumulated
sequence rather than appending; removing a non-existent id is a no-op, not
an error. Accumulated entries are pairs of an identity and a payload. The
removal call site in the repository is summarize_history in
src/advanced_chat_bot_1.py, which emits one removal update per pruned
message. -/

inductive MsgUpdate (μ : Type) where
  | add (id : Nat) (m : μ)
  | removeById (id : Nat)
deriving DecidableEq, Repr

/-- Modelled from the spec: one application of the message reducer. An add
appends the entry to the accumulated sequence; a removal deletes every
entry whose identity matches (identities are unique among live entries),
and is a no-op when no entry matches. -/
def applyMsgUpdate (acc : List (Nat × μ)) : MsgUpdate μ → List (Nat × μ)
  | MsgUpdate.add i m => acc ++ [(i, m)]
  | MsgUpdate.removeById i => acc.filter fun e => e.1 != i

/-- Folding a sequence of message updates into the accumulated sequence. -/
def applyMsgUpdates (acc : List (Nat × μ)) (us : List (MsgUpdate μ)) :
    List (Nat × μ) :=
  us.foldl applyMsgUpdate acc

/-- Whether an update is an ordinary append whose identity differs
from `i`. -/
def isAddOther (i : Nat) : MsgUpdate μ → Bool
  | MsgUpdate.add j _ => j != i
  | MsgUpdate.removeById _ => false

/-- The entries contributed by the append updates of a sequence. -/
def addedEntries : List (MsgUpdate μ) → List (Nat × μ)
  | [] => []
  | MsgUpdate.add i m :: t => (i, m) :: addedEntries t
  | MsgUpdate.removeById _ :: t => addedEntries t

theorem applyMsgUpdates_append (acc : List (Nat × μ)) (us vs : List (MsgUpdate μ)) :
    applyMsgUpdates acc (us ++ vs) = applyMsgUpdates (applyMsgUpdates acc us) vs :=
  List.foldl_append _ _ _ _

theorem applyMsgUpdates_of_all_adds (i : Nat) (us : List (MsgUpdate μ))
    (h : us.all (isAddOther i) = true) (acc : List (Nat × μ)) :
    applyMsgUpdates acc us = acc ++ addedEntries us := by
  induction us generalizing acc with
  | nil => simp [applyMsgUpdates, addedEntries]
  | cons u t ih =>
    rw [List.all_cons, Bool.and_eq_true] at h
    cases u with
    | add j m =>
      rw [show applyMsgUpdates acc (MsgUpdate.add j m :: t)
          = applyMsgUpdates (acc ++ [(j, m)]) t from rfl, ih h.2, addedEntries]
      simp
    | removeById j => simp [isAddOther] at h

theorem addedEntries_fresh (i : Nat) (us : List (MsgUpdate μ))
    (h : us.all (isAddOther i) = true) :
    (addedEntries us).all (fun e => e.1 != i) = true := by
  induction us with
  | nil => rfl
  | cons u t ih =>
    rw [List.all_cons, Bool.and_eq_true] at h
    cases u with
    | add j m =>
      rw [addedEntries, List.all_cons, Bool.and_eq_true]
      exact ⟨h.1, ih h.2⟩
    | removeById j => simp [isAddOther] at h

theorem filter_of_all_fresh (i : Nat) (l : List (Nat × μ))
    (h : l.all (fun e => e.1 != i) = true) :
    (l.filter fun e => e.1 != i) = l :=
  List.filter_eq_self.mpr (List.all_eq_true.mp h)

theorem applyMsgUpdates_single (acc : List (Nat × μ)) (u : MsgUpdate μ) :
    applyMsgUpdates acc [u] = applyMsgUpdate acc u := rfl

/-! ## Checkpoint Log

Modelled from the spec: the Checkpoint Log (spec section 4.3) is the
framework checkpointer (InMemorySaver / MemorySaver), of which the
repository only constructs instances (src/langgraph-essentials/4-memory.py
and the compile calls of the other scripts). A checkpoint holds the session
id, a sequence number, the state snapshot and the pending suspensions; the
log is a list in write order. A write appends one entry whose sequence
number is one more than that of the latest entry for the session (zero for
an unseen session); latest returns the most recent entry for the
session. -/

structure Checkpoint (σ ρ : Type) where
  sessionId : String
  seqNo : Nat
  snapshot : σ
  pendingSuspensions : List ρ
deriving DecidableEq, Repr

/-- The entries of the log belonging to one session, oldest first. -/
def sessionEntries (log : List (Checkpoint σ ρ)) (sid : String) :
    List (Checkpoint σ ρ) :=
  log.filter fun c => c.sessionId == sid

/-- Modelled from the spec: the most recent checkpoint of a session, or none
for an unseen session. -/
def latest (log : List (Checkpoint σ ρ)) (sid : String) :
    Option (Checkpoint σ ρ) :=
  (sessionEntries log sid).getLast?

/-- The sequence number the runner assigns to the next checkpoint of a
session. -/
def nextSeqNo (log : List (Checkpoint σ ρ)) (sid : String) : Nat :=
  match latest log sid with
  | none => 0
  | some c => c.seqNo + 1

/-- Modelled from the spec: a checkpoint write appends; it never overwrites
prior entries. -/
def write (log : List (Checkpoint σ ρ)) (sid : String) (snap : σ)
    (pend : List ρ) : List (Checkpoint σ ρ) :=
  log ++ [{ sessionId := sid, seqNo := nextSeqNo log sid, snapshot := snap,
            pendingSuspensions := pend }]

/-- Logs reachable by the Checkpoint Log interface: the empty log and
writes. -/
inductive BuiltLog : List (Checkpoint σ ρ) → Prop where
  | nil : BuiltLog []
  | step (log : List (Checkpoint σ ρ)) (sid : String) (snap : σ)
      (pend : List ρ) : BuiltLog log → BuiltLog (write log sid snap pend)

/-- In a list that is pairwise strictly increasing under a measure, every
measure of every element is at most that of the last element. -/
theorem le_getLast_of_pairwise {β : Type} (f : β → Nat) :
    ∀ l : List β, l.Pairwise (fun a b => f a < f b) →
      ∀ a ∈ l, ∀ x ∈ l.getLast?, f a ≤ f x
  | [], _, a, ha, _, _ => absurd ha (List.not_mem_nil a)
  | [b], _, a, ha, x, hx => by
    simp only [List.mem_singleton] at ha
    have hxb : x = b := by
      have : ([b] : List β).getLast? = some b := rfl
      rw [this, Option.mem_def, Option.some.injEq] at hx
      exact hx.symm
    rw [ha, hxb]
  | b :: c :: t, hp, a, ha, x, hx => by
    rw [List.getLast?_cons_cons] at hx
    rcases List.mem_cons.mp ha with h | h
    · subst h
      have hxmem : x ∈ c :: t := by
        rcases List.mem_getLast?_eq_getLast hx with ⟨hne, hex⟩
        rw [hex]
        exact List.getLast_mem hne
      exact Nat.le_of_lt ((List.pairwise_cons.mp hp).1 x hxmem)
    · exact le_getLast_of_pairwise f (c :: t) (List.pairwise_cons.mp hp).2 a h x hx

theorem sessionEntries_write (log : List (Checkpoint σ ρ)) (sid sid2 : String)
    (snap : σ) (pend : List ρ) :
    sessionEntries (write log sid snap pend) sid2
      = sessionEntries log sid2
        ++ if sid = sid2 then
            [{ sessionId := sid, seqNo := nextSeqNo log sid, snapshot := snap,
               pendingSuspensions := pend }]
          else [] := by
  rw [sessionEntries, write, List.filter_append]
  by_cases h : sid = sid2
  · simp [sessionEntries, h]
  · simp [sessionEntries, h]

/-- In every reachable log, the sequence numbers of the entries of each
session strictly increase in write order. -/
theorem builtLog_pairwise {log : List (Checkpoint σ ρ)} (h : BuiltLog log)
    (sid : String) :
    (sessionEntries log sid).Pairwise (fun a b => a.seqNo < b.seqNo) := by
  induction h with
  | nil => simp [sessionEntries]
  | step log1 sid1 snap pend hb ih =>
    rw [sessionEntries_write]
    by_cases hs : sid1 = sid
    · rw [if_pos hs, List.pairwise_append]
      refine ⟨ih, List.pairwise_singleton _ _, ?_⟩
      intro a hma b hmb
      rw [List.mem_singleton] at hmb
      subst hmb
      subst hs
      show a.seqNo < nextSeqNo log1 sid1
      cases hl : latest log1 sid1 with
      | none =>
        rw [latest, List.getLast?_eq_none_iff] at hl
        rw [hl] at hma
        cases hma
      | some m =>
        rw [nextSeqNo, hl]
        have : a.seqNo ≤ m.seqNo := by
          refine le_getLast_of_pairwise (fun c => c.seqNo) _ ih a hma m ?_
          rw [Option.mem_def, ← latest, hl]
        show a.seqNo < m.seqNo + 1
        omega
    · rw [if_neg hs, List.append_nil]
      exact ih

/-! ## Tool failures surfaced as string results

Translated from src/langgraph-essentials/8-application-sql-agent.py. The
database runner is an external collaborator that either returns a result
string or fails with an error message; execute_sql catches the failure and
returns the message formatted as an ordinary string, so the invocation is
never aborted (the function is total into String) and the result is fed
back into the message state like any other tool result. -/

def execute_sql (run : String → Except String String) (query : String) : String :=
  match run query with
  | Except.ok r => r
  | Except.error e => "Error executing SQL: " ++ e

/-- A tool result is appended to the accumulated message state as an
ordinary entry. -/
def appendToolResult (messages : List String) (result : String) : List String :=
  messages ++ [result]

/-! ## Email agent: classification, routing and the review gate

Translated from src/langgraph-essentials/7-application-email-agent.py: the
state schema, the routing functions route_from_classification,
decide_review_needed and route_after_review, and the graph wiring
read_email to classify_intent, conditional fan-out to bug_tracking and
search_documentation, fan-in at write_response, conditional review gate,
human_review to send_reply or END. LLM outputs (classification, draft) and
the ticket id are oracle parameters; the executed-node trace of a session
is made explicit. -/

inductive Intent where
  | question
  | bug
  | feature
  | other
deriving DecidableEq, Repr

inductive Priority where
  | low
  | medium
  | high
  | critical
deriving DecidableEq, Repr

structure EmailClassification where
  intent : Intent
  priority : Priority
  topic : String
  summary : String
deriving DecidableEq, Repr

structure EmailAgentState where
  email : String
  subject : String
  body : String
  classification : Option EmailClassification
  ticket_id : Option String
  ticket_description : Option String
  search_results : Option (List String)
  customer_history : Option (List (String × String))
  draft_response : Option String
  human_decision : Option String
deriving DecidableEq, Repr

def intentStr : Intent → String
  | Intent.question => "question"
  | Intent.bug => "bug"
  | Intent.feature => "feature"
  | Intent.other => "other"

def priorityStr : Priority → String
  | Priority.low => "low"
  | Priority.medium => "medium"
  | Priority.high => "high"
  | Priority.critical => "critical"

/-- The ticket description built by bug_tracking from the classification. -/
def ticketDescription (cls : EmailClassification) : String :=
  "intent: " ++ intentStr cls.intent ++ " - priority: " ++ priorityStr cls.priority
    ++ " - topic: " ++ cls.topic ++ " \n\n" ++ cls.summary

/-- The terminal marker of the graph. -/
def ENDNode : String := "__end__"

/-- route_from_classification: bugs fan out to bug_tracking and
search_documentation; every other intent goes to search_documentation
only. -/
def route_from_classification (s : EmailAgentState) : List String :=
  match s.classification with
  | some cls =>
    if cls.intent = Intent.bug then ["bug_tracking", "search_documentation"]
    else ["search_documentation"]
  | none => ["search_documentation"]

/-- The review condition of decide_review_needed: priority high or
critical, or intent other. -/
def needsReview (cls : EmailClassification) : Prop :=
  cls.priority = Priority.high ∨ cls.priority = Priority.critical
    ∨ cls.intent = Intent.other

instance (cls : EmailClassification) : Decidable (needsReview cls) := by
  unfold needsReview
  infer_instance

/-- decide_review_needed: high or critical priority, or an unclear intent,
requires approval; a missing classification reads as empty fields in the
source and routes to send_reply. -/
def decide_review_needed (s : EmailAgentState) : String :=
  match s.classification with
  | some cls => if needsReview cls then "human_review" else "send_reply"
  | none => "send_reply"

/-- route_after_review: approved emails proceed to send, anything else ends
the workflow; an absent decision reads as the empty string. -/
def route_after_review (s : EmailAgentState) : String :=
  if s.human_decision.getD "" = "approve" then "send_reply" else ENDNode

/-- Result of a whole session of the email agent: the executed-node trace
across the initial invocation and the optional resume, the resulting state,
and whether the session is still suspended at human_review. -/
structure EmailRun where
  trace : List String
  finalState : EmailAgentState
  suspended : Bool
deriving DecidableEq, Repr

/-- The nodes executed before the review gate, in order: read_email,
classify_intent, the conditional fan-out, and write_response. -/
def emailPreTrace (cls : EmailClassification) : List String :=
  ["read_email", "classify_intent"]
    ++ (if cls.intent = Intent.bug then ["bug_tracking", "search_documentation"]
        else ["search_documentation"])
    ++ ["write_response"]

/-- One session of the email agent graph: the first invocation runs
read_email, classify_intent (producing the oracle classification `cls`),
the conditional fan-out (bug_tracking sets the ticket fields on the bug
path; search_documentation sets the search results), write_response (the
oracle draft), then the review gate. Without review the reply is sent
directly. With review the first invocation suspends inside human_review;
if a resume value is supplied, human_review re-executes, stores it as the
human decision, and route_after_review either proceeds to send_reply or
ends the workflow. -/
def runEmailAgent (cls : EmailClassification) (ticket : String)
    (searchRes : List String) (draft : String) (resume : Option String)
    (s0 : EmailAgentState) : EmailRun :=
  let s1 := { s0 with classification := some cls }
  let s2 := if cls.intent = Intent.bug then
      { s1 with ticket_id := some ticket,
                ticket_description := some (ticketDescription cls) }
    else s1
  let s3 := { s2 with search_results := some searchRes }
  let s4 := { s3 with draft_response := some draft }
  if decide_review_needed s4 = "human_review" then
    match resume with
    | none =>
      { trace := emailPreTrace cls ++ ["human_review"], finalState := s4,
        suspended := true }
    | some d =>
      let s5 := { s4 with human_decision := some d }
      if route_after_review s5 = "send_reply" then
        { trace := emailPreTrace cls ++ ["human_review", "human_review", "send_reply"],
          finalState := s5, suspended := false }
      else
        { trace := emailPreTrace cls ++ ["human_review", "human_review"],
          finalState := s5, suspended := false }
  else
    { trace := emailPreTrace cls ++ ["send_reply"], finalState := s4,
      suspended := false }

/-! ## Theorems on the suspension/resume controller -/

/-- C1: resume transparency. For every step with one suspension point and
every decision value `d`, invoking (which suspends at that point) and then
resuming with `d` yields the same final state as the otherwise-identical
step that uses `d` directly in place of the suspension point. -/
theorem resume_transparency {σ ρ δ : Type} (st : StepDef σ ρ δ) (s : σ) (d : δ) :
    (resumeStep st (invokeStep st s).2 d).2
      = SessionStatus.completed (directRun st d s).1 := rfl

/-- C2: resume re-enters the suspended step from its beginning. After an
invocation the session is in the SUSPENDED state holding the checkpointed
state and the request; resuming with a decision `d` re-executes all code
before the suspension point (its effects appear again, at the start of the
resume log), returns `d` as the result of the suspension point instead of
suspending again, and the step runs to completion. -/
theorem resume_reenters_from_beginning {σ ρ δ : Type}
    (st : StepDef σ ρ δ) (s : σ) (d : δ) :
    (invokeStep st s).2 = SessionStatus.suspendedAt s (st.request (st.pre s).1)
  ∧ (resumeStep st (SessionStatus.suspendedAt s (st.request (st.pre s).1)) d).1
      = (st.pre s).2 ++ (st.post (st.pre s).1 d).2
  ∧ (resumeStep st (SessionStatus.suspendedAt s (st.request (st.pre s).1)) d).2
      = SessionStatus.completed (st.post (st.pre s).1 d).1 :=
  ⟨rfl, rfl, rfl⟩

/-- C3 counterexample: for review_node the external print placed before the
suspension point is performed twice across one suspend/resume cycle, while a
single direct run performs it once; the effect logs differ, so the side
effects are not equivalent to having run once. -/
theorem review_node_pre_effect_runs_twice :
    (cycleEffects reviewNodeStep ⟨"budget", HStatusVal.pending⟩ "approve").count
        "Entered review_node" = 2
  ∧ ((directRun reviewNodeStep "approve" ⟨"budget", HStatusVal.pending⟩).2).count
        "Entered review_node" = 1
  ∧ cycleEffects reviewNodeStep ⟨"budget", HStatusVal.pending⟩ "approve"
      ≠ (directRun reviewNodeStep "approve" ⟨"budget", HStatusVal.pending⟩).2 := by
  decide

/-- C3 amended: code before a suspension point re-executes on resume, so its
external effects occur once per entry into the step — twice across one
suspend/resume cycle — while the final state is nevertheless the same as if
the step had run once with the decision in place; idempotency of the
pre-suspension code is an unenforced caller obligation. -/
theorem pre_effects_once_per_entry {σ ρ δ : Type}
    (st : StepDef σ ρ δ) (s : σ) (d : δ) :
    cycleEffects st s d
      = (st.pre s).2 ++ ((st.pre s).2 ++ (st.post (st.pre s).1 d).2)
  ∧ cycleState st s d = StepOutcome.completed (directRun st d s).1 :=
  ⟨rfl, rfl⟩

/-- C8: approve scenario. From the initial state with proposal text
"budget" and status pending, invoking the approval graph suspends at the
review step with a request whose options contain approve and reject;
resuming that session with the decision approve drives execution to a final
state whose status is approved. -/
theorem approve_scenario :
    invokeHitl ⟨"budget", HStatusVal.pending⟩
      = HitlOutcome.suspendedReview ⟨"budget", HStatusVal.pending⟩
          (reviewRequest ⟨"budget", HStatusVal.pending⟩)
  ∧ "approve" ∈ (reviewRequest ⟨"budget", HStatusVal.pending⟩).options
  ∧ "reject" ∈ (reviewRequest ⟨"budget", HStatusVal.pending⟩).options
  ∧ resumeHitl (invokeHitl ⟨"budget", HStatusVal.pending⟩) "approve"
      = HitlOutcome.finalState ⟨"budget", HStatusVal.approved⟩ := by
  refine ⟨rfl, ?_, ?_, ?_⟩ <;> decide

/-- C4: deterministic merge of parallel appends. For every wave of `n`
registered steps contributing to an accumulating field and every schedule
that is a permutation of the registration indices, the merged value equals
`init` followed by the contributions concatenated in registration order —
independent of the schedule. -/
theorem merge_deterministic {α : Type} (n : Nat) (f : Nat → List α)
    (sched : List Nat) (init : List α) (hp : sched.Perm (List.range n)) :
    mergeWave n f sched init = init ++ ((List.range n).map f).flatten := by
  unfold mergeWave
  rw [filterMap_eq_map_of_forall _ f _ fun i hi =>
    lookup_collectPairs f sched i (hp.mem_iff.mpr hi)]

/-- C4 witness: three steps in one wave (nodes B, C, D of the static-edges
example), each appending one token to a field that starts as the empty
list, merged under the schedule 2, 0, 1, yield the three tokens in
registration order. -/
theorem merge_deterministic_witness :
    ([2, 0, 1] : List Nat).Perm (List.range 3)
  ∧ mergeWave 3 staticEdgesWave [2, 0, 1] [] = ["B", "C", "D"] :=
  ⟨by decide, by
    rw [merge_deterministic 3 staticEdgesWave [2, 0, 1] [] (by decide)]
    rfl⟩

/-- C5: removal reducer round-trip and no-op. For every accumulated
sequence and every interleaving of other concurrent appends (with
identities distinct from the entry in question, identities being unique
among live entries), appending an entry and then removing it by id yields
the same accumulated sequence as if the entry had never been appended; and
removing an id that is not present is a no-op. -/
theorem removal_round_trip {μ : Type} (acc : List (Nat × μ)) (i : Nat) (m : μ)
    (us₁ us₂ us₃ : List (MsgUpdate μ))
    (hacc : acc.all (fun e => e.1 != i) = true)
    (h₁ : us₁.all (isAddOther i) = true)
    (h₂ : us₂.all (isAddOther i) = true)
    (h₃ : us₃.all (isAddOther i) = true) :
    applyMsgUpdates acc
        (us₁ ++ [MsgUpdate.add i m] ++ us₂ ++ [MsgUpdate.removeById i] ++ us₃)
      = applyMsgUpdates acc (us₁ ++ us₂ ++ us₃)
  ∧ applyMsgUpdates acc [MsgUpdate.removeById i] = acc := by
  constructor
  · simp only [applyMsgUpdates_append, applyMsgUpdates_single,
      applyMsgUpdates_of_all_adds i us₁ h₁,
      applyMsgUpdates_of_all_adds i us₂ h₂,
      applyMsgUpdates_of_all_adds i us₃ h₃,
      applyMsgUpdate, List.filter_append, List.filter_cons, List.filter_nil,
      bne_self_eq_false, filter_of_all_fresh i acc hacc,
      filter_of_all_fresh i (addedEntries us₁) (addedEntries_fresh i us₁ h₁),
      filter_of_all_fresh i (addedEntries us₂) (addedEntries_fresh i us₂ h₂),
      List.append_assoc, List.append_nil]
    simp
  · simpa [applyMsgUpdates_single, applyMsgUpdate] using
      filter_of_all_fresh i acc hacc

/-- C5 witness: round-trip at a concrete accumulated sequence and
interleaving. -/
theorem removal_round_trip_witness :
    applyMsgUpdates [(1, "a")]
        ([MsgUpdate.add 3 "c"] ++ [MsgUpdate.add 2 "b"] ++ [MsgUpdate.add 4 "d"]
          ++ [MsgUpdate.removeById 2] ++ [MsgUpdate.add 5 "e"])
      = applyMsgUpdates [(1, "a")]
          ([MsgUpdate.add 3 "c"] ++ [MsgUpdate.add 4 "d"] ++ [MsgUpdate.add 5 "e"])
  ∧ applyMsgUpdates [(1, "a")] [MsgUpdate.removeById 2] = [(1, "a")] :=
  removal_round_trip [(1, "a")] 2 "b" [MsgUpdate.add 3 "c"] [MsgUpdate.add 4 "d"]
    [MsgUpdate.add 5 "e"] (by decide) (by decide) (by decide) (by decide)

/-- C6: checkpoint log monotonicity. In every reachable log, a write only
appends (prior entries are preserved unchanged), the sequence numbers of
the entries of each session strictly increase in write order, latest
returns an entry of maximal sequence number for every session that has an
entry, and latest returns none for a session that has never been seen. -/
theorem checkpoint_log_monotonic {σ ρ : Type} (log : List (Checkpoint σ ρ))
    (sid : String) (snap : σ) (pend : List ρ) (h : BuiltLog log) :
    write log sid snap pend
        = log ++ [{ sessionId := sid, seqNo := nextSeqNo log sid,
                    snapshot := snap, pendingSuspensions := pend }]
  ∧ (sessionEntries log sid).Pairwise (fun a b => a.seqNo < b.seqNo)
  ∧ (∀ c ∈ log, c.sessionId = sid →
      ∃ m, latest log sid = some m ∧ c.seqNo ≤ m.seqNo)
  ∧ ((∀ c ∈ log, c.sessionId ≠ sid) → latest log sid = none) := by
  refine ⟨rfl, builtLog_pairwise h sid, ?_, ?_⟩
  · intro c hc hcs
    have hmem : c ∈ sessionEntries log sid := by
      rw [sessionEntries, List.mem_filter]
      exact ⟨hc, by simp [hcs]⟩
    have hne : sessionEntries log sid ≠ [] := List.ne_nil_of_mem hmem
    refine ⟨(sessionEntries log sid).getLast hne, ?_, ?_⟩
    · rw [latest, List.getLast?_eq_getLast _ hne]
    · refine le_getLast_of_pairwise (fun x => x.seqNo) _
        (builtLog_pairwise h sid) c hmem _ ?_
      rw [Option.mem_def, List.getLast?_eq_getLast _ hne]
  · intro hall
    rw [latest, sessionEntries, List.getLast?_eq_none_iff, List.filter_eq_nil_iff]
    intro c hc
    simp [hall c hc]

/-- C6 witness: the log obtained by one write for session s1, checked
against a second write. -/
theorem checkpoint_log_monotonic_witness :
    write (write ([] : List (Checkpoint Nat Nat)) "s1" 0 []) "s1" 1 []
        = write ([] : List (Checkpoint Nat Nat)) "s1" 0 []
          ++ [{ sessionId := "s1",
                seqNo := nextSeqNo (write ([] : List (Checkpoint Nat Nat)) "s1" 0 []) "s1",
                snapshot := 1, pendingSuspensions := [] }]
  ∧ (sessionEntries (write ([] : List (Checkpoint Nat Nat)) "s1" 0 []) "s1").Pairwise
      (fun a b => a.seqNo < b.seqNo)
  ∧ (∀ c ∈ write ([] : List (Checkpoint Nat Nat)) "s1" 0 [], c.sessionId = "s1" →
      ∃ m, latest (write ([] : List (Checkpoint Nat Nat)) "s1" 0 []) "s1" = some m
        ∧ c.seqNo ≤ m.seqNo)
  ∧ ((∀ c ∈ write ([] : List (Checkpoint Nat Nat)) "s1" 0 [], c.sessionId ≠ "s1")
      → latest (write ([] : List (Checkpoint Nat Nat)) "s1" 0 []) "s1" = none) :=
  checkpoint_log_monotonic (write [] "s1" 0 []) "s1" 1 []
    (BuiltLog.step [] "s1" 0 [] BuiltLog.nil)

/-- Under a classification that needs review, the session trace is the
pre-review nodes followed by the review gate: a suspension without a
resume value, and with a resume value a re-executed human_review followed
by send_reply exactly on the decision approve. -/
theorem runEmailAgent_trace (cls : EmailClassification) (ticket : String)
    (searchRes : List String) (draft : String) (resume : Option String)
    (s0 : EmailAgentState) (hrev : needsReview cls) :
    (runEmailAgent cls ticket searchRes draft resume s0).trace
      = emailPreTrace cls ++
        (match resume with
         | none => ["human_review"]
         | some d =>
           if d = "approve" then ["human_review", "human_review", "send_reply"]
           else ["human_review", "human_review"]) := by
  cases resume with
  | none =>
    by_cases hb : cls.intent = Intent.bug <;>
      simp [runEmailAgent, decide_review_needed, hb, hrev]
  | some d =>
    by_cases hb : cls.intent = Intent.bug <;>
    by_cases ha : d = "approve" <;>
      simp [runEmailAgent, decide_review_needed, route_after_review, ENDNode,
        hb, ha, hrev]

/-- C7: tool failures are ordinary string results. For every fallible
database runner and every query on which it fails with message `e`,
execute_sql returns the formatted error string — the invocation is not
aborted, execute_sql being total into String — and appending it to the
accumulated message state treats it like any normal result. -/
theorem tool_failure_surfaced_as_string (run : String → Except String String)
    (query e : String) (msgs : List String)
    (hfail : run query = Except.error e) :
    execute_sql run query = "Error executing SQL: " ++ e
  ∧ appendToolResult msgs (execute_sql run query)
      = msgs ++ ["Error executing SQL: " ++ e] := by
  have h1 : execute_sql run query = "Error executing SQL: " ++ e := by
    rw [execute_sql, hfail]
  exact ⟨h1, by rw [appendToolResult, h1]⟩

/-- C7 witness: a runner failing with a concrete message. -/
theorem tool_failure_surfaced_as_string_witness :
    execute_sql (fun _ => Except.error "no such table: users") "SELECT 1"
        = "Error executing SQL: " ++ "no such table: users"
  ∧ appendToolResult ["earlier"]
        (execute_sql (fun _ => Except.error "no such table: users") "SELECT 1")
      = ["earlier"] ++ ["Error executing SQL: " ++ "no such table: users"] :=
  tool_failure_surfaced_as_string (fun _ => Except.error "no such table: users")
    "SELECT 1" "no such table: users" ["earlier"] rfl

/-- C9: the reply is sent only on an exact approve decision.
route_after_review routes to send_reply exactly when the stored human
decision is the string approve (an absent decision reads as the empty
string and routes to END); and in a session whose classification needs
review, resumed with value `v`, send_reply executes exactly when `v` is
approve. -/
theorem reply_sent_only_on_exact_approve (s : EmailAgentState)
    (cls : EmailClassification) (ticket : String) (searchRes : List String)
    (draft : String) (v : String) (s0 : EmailAgentState)
    (hrev : needsReview cls) :
    (route_after_review s = "send_reply" ↔ s.human_decision = some "approve")
  ∧ ("send_reply" ∈ (runEmailAgent cls ticket searchRes draft (some v) s0).trace
      ↔ v = "approve") := by
  constructor
  · cases hs : s.human_decision with
    | none => simp [route_after_review, hs, ENDNode]
    | some d =>
      by_cases hd : d = "approve" <;>
        simp [route_after_review, hs, ENDNode, hd]
  · rw [runEmailAgent_trace cls ticket searchRes draft (some v) s0 hrev]
    by_cases hv : v = "approve" <;>
    by_cases hb : cls.intent = Intent.bug <;>
      simp [hv, hb, emailPreTrace]

/-- C9 witness: a high-priority question resumed with reject. -/
theorem reply_sent_only_on_exact_approve_witness :
    (route_after_review
          { email := "a@b.c", subject := "s", body := "b",
            classification := none, ticket_id := none,
            ticket_description := none, search_results := none,
            customer_history := none, draft_response := none,
            human_decision := some "reject" } = "send_reply"
      ↔ ({ email := "a@b.c", subject := "s", body := "b",
            classification := none, ticket_id := none,
            ticket_description := none, search_results := none,
            customer_history := none, draft_response := none,
            human_decision := some "reject" } : EmailAgentState).human_decision
          = some "approve")
  ∧ ("send_reply" ∈ (runEmailAgent
        { intent := Intent.question, priority := Priority.high,
          topic := "billing", summary := "charged twice" }
        "BUG-1" ["doc"] "draft" (some "reject")
        { email := "a@b.c", subject := "s", body := "b",
          classification := none, ticket_id := none,
          ticket_description := none, search_results := none,
          customer_history := none, draft_response := none,
          human_decision := none }).trace
      ↔ "reject" = "approve") :=
  reply_sent_only_on_exact_approve
    { email := "a@b.c", subject := "s", body := "b", classification := none,
      ticket_id := none, ticket_description := none, search_results := none,
      customer_history := none, draft_response := none,
      human_decision := some "reject" }
    { intent := Intent.question, priority := Priority.high,
      topic := "billing", summary := "charged twice" }
    "BUG-1" ["doc"] "draft" "reject"
    { email := "a@b.c", subject := "s", body := "b", classification := none,
      ticket_id := none, ticket_description := none, search_results := none,
      customer_history := none, draft_response := none,
      human_decision := none }
    (Or.inl rfl)

/-- C10: the review gate is never bypassed. In every session whose
classification has priority high or critical or intent other, send_reply
never executes without a resume decision, and whenever send_reply
executes, the resume decision approve was supplied and human_review
appears in the trace before send_reply. -/
theorem review_gate_never_bypassed (cls : EmailClassification)
    (ticket : String) (searchRes : List String) (draft : String)
    (resume : Option String) (s0 : EmailAgentState) (hrev : needsReview cls) :
    (resume = none →
      "send_reply" ∉ (runEmailAgent cls ticket searchRes draft resume s0).trace)
  ∧ ("send_reply" ∈ (runEmailAgent cls ticket searchRes draft resume s0).trace →
      ∃ d, resume = some d ∧ d = "approve"
        ∧ List.Sublist ["human_review", "send_reply"]
            (runEmailAgent cls ticket searchRes draft resume s0).trace) := by
  rw [runEmailAgent_trace cls ticket searchRes draft resume s0 hrev]
  constructor
  · rintro rfl
    by_cases hb : cls.intent = Intent.bug <;> simp [emailPreTrace, hb]
  · intro hmem
    cases resume with
    | none =>
      exfalso
      revert hmem
      by_cases hb : cls.intent = Intent.bug <;> simp [emailPreTrace, hb]
    | some d =>
      by_cases ha : d = "approve"
      · subst ha
        refine ⟨"approve", rfl, rfl, ?_⟩
        refine List.Sublist.trans ?_
          (List.sublist_append_right (emailPreTrace cls) _)
        show List.Sublist ["human_review", "send_reply"]
          ["human_review", "human_review", "send_reply"]
        decide
      · exfalso
        revert hmem
        by_cases hb : cls.intent = Intent.bug <;>
          simp [emailPreTrace, hb, ha]

/-- C10 witness: a critical bug report, resumed with approve. -/
theorem review_gate_never_bypassed_witness :
    ((some "approve" : Option String) = none →
      "send_reply" ∉ (runEmailAgent
        { intent := Intent.bug, priority := Priority.critical,
          topic := "api", summary := "504 errors" }
        "BUG-2" ["doc"] "draft" (some "approve")
        { email := "t@e.com", subject := "s", body := "b",
          classification := none, ticket_id := none,
          ticket_description := none, search_results := none,
          customer_history := none, draft_response := none,
          human_decision := none }).trace)
  ∧ ("send_reply" ∈ (runEmailAgent
        { intent := Intent.bug, priority := Priority.critical,
          topic := "api", summary := "504 errors" }
        "BUG-2" ["doc"] "draft" (some "approve")
        { email := "t@e.com", subject := "s", body := "b",
          classification := none, ticket_id := none,
          ticket_description := none, search_results := none,
          customer_history := none, draft_response := none,
          human_decision := none }).trace →
      ∃ d, (some "approve" : Option String) = some d ∧ d = "approve"
        ∧ List.Sublist ["human_review", "send_reply"]
            (runEmailAgent
              { intent := Intent.bug, priority := Priority.critical,
                topic := "api", summary := "504 errors" }
              "BUG-2" ["doc"] "draft" (some "approve")
              { email := "t@e.com", subject := "s", body := "b",
                classification := none, ticket_id := none,
                ticket_description := none, search_results := none,
                customer_history := none, draft_response := none,
                human_decision := none }).trace) :=
  review_gate_never_bypassed
    { intent := Intent.bug, priority := Priority.critical,
      topic := "api", summary := "504 errors" }
    "BUG-2" ["doc"] "draft" (some "approve")
    { email := "t@e.com", subject := "s", body := "b",
      classification := none, ticket_id := none, ticket_description := none,
      search_results := none, customer_history := none,
      draft_response := none, human_decision := none }
    (Or.inr (Or.inl rfl))

end LangchainLab
